import Mathlib

/-!
Verification of the exam-PDF parser of `src/app.py` (functions
`extract_answer_key`, `parse_exam_pdf` and its nested helpers `is_footer`,
`is_answer_marker`, `split_options_anywhere`, `finalize_question`).

Embedding conventions:
* Python strings are `List Char` (`Str`); `S` converts a Lean string literal.
* Python `str.strip` / regex `\s` are modelled by `isSpace`, covering the
  whitespace characters that can occur in exam text (ASCII whitespace and
  the ideographic space U+3000).
* Regex `\d` is modelled as ASCII digits `0`-`9`.
* Each regex of the source is translated into an explicit matcher that
  reproduces its leftmost/greedy semantics on the patterns involved
  (documented at each definition).
-/

namespace RPOExam

/-- Python strings are modelled as lists of characters. -/
abbrev Str := List Char

/-- Shorthand turning a Lean string literal into the `Str` model. -/
def S (s : String) : Str := s.data

/-- Whitespace for `str.strip` and regex `\s` (see module docstring). -/
def isSpace (c : Char) : Bool :=
  c = ' ' || c = '\t' || c = '\n' || c = '\r' || c = '\x0b' || c = '\x0c' || c = '　'

/-- Python `str.strip()`: drop leading and trailing whitespace. -/
def strip (s : Str) : Str :=
  ((s.dropWhile isSpace).reverse.dropWhile isSpace).reverse

/-- Python `text.split("\n")`: note `"".split("\n") == [""]`. -/
def splitLines : Str → List Str
  | [] => [[]]
  | c :: rest =>
    if c = '\n' then [] :: splitLines rest
    else
      match splitLines rest with
      | l :: ls => (c :: l) :: ls
      | [] => [[c]]

/-- ASCII digit test, modelling regex `\d` on the exam text. -/
def isDigitCh (c : Char) : Bool := '0' ≤ c && c ≤ '9'

/-- Consume leading whitespace (regex `\s*`). -/
def eatSpaces (s : Str) : Str := s.dropWhile isSpace

/-- Consume one expected character, failing otherwise. -/
def expectChar (c : Char) : Str → Option Str
  | x :: r => if x = c then some r else none
  | [] => none

/-- Consume one or more ASCII digits (regex `\d+`), failing on zero digits. -/
def eatDigits1 (s : Str) : Option Str :=
  if (s.takeWhile isDigitCh).isEmpty then none else some (s.dropWhile isDigitCh)

/-- `is_footer` of `parse_exam_pdf`: `re.match(r"^第\s*\d+\s*頁/共\s*\d+\s*頁", s.strip())`. -/
def is_footer (s : Str) : Bool :=
  (do
    let r ← expectChar '第' (strip s)
    let r ← eatDigits1 (eatSpaces r)
    let r ← expectChar '頁' (eatSpaces r)
    let r ← expectChar '/' r
    let r ← expectChar '共' r
    let r ← eatDigits1 (eatSpaces r)
    let _ ← expectChar '頁' (eatSpaces r)
    pure ()).isSome

/-- Remainder after an answer tag when `s` starts with `[解]`, `[解:]` or `[解：]`. -/
def tagEnd : Str → Option Str
  | '[' :: '解' :: ']' :: r => some r
  | '[' :: '解' :: ':' :: ']' :: r => some r
  | '[' :: '解' :: '：' :: ']' :: r => some r
  | _ => none

/-- `is_answer_marker` of `parse_exam_pdf`: `re.search(r"\[解(?:[:：])?\]", s)`. -/
def is_answer_marker : Str → Bool
  | [] => false
  | c :: r => (tagEnd (c :: r)).isSome || is_answer_marker r

/-- Remainder of the line after the LAST occurrence of the answer tag
(`re.sub(r".*\[解(?:[:：])?\]\s*", "", line)` removes, with its greedy `.*`,
everything up to and including the last tag and following whitespace). -/
def lastTagRemainder : Str → Option Str
  | [] => none
  | c :: r =>
    match lastTagRemainder r with
    | some r2 => some r2
    | none => tagEnd (c :: r)

/-- The `after` text of the answer-marker branch of `parse_exam_pdf`:
`re.sub(r".*\[解(?:[:：])?\]\s*", "", line).strip()` (stripping subsumes the
trailing `\s*` of the pattern). -/
def afterMarker (s : Str) : Str :=
  match lastTagRemainder s with
  | some r => strip r
  | none => strip s

/-- The character class `[1-4A-Da-d]` of `extract_answer_key`. -/
def keyChars : List Char := ['1', '2', '3', '4', 'A', 'B', 'C', 'D', 'a', 'b', 'c', 'd']

/-- Group 1 of `re.match(r"^[\(（]?([1-4A-Da-d])[\)）\.]?", t)` on the already
stripped text: an optional opening parenthesis, then the key character (the
optional closing parenthesis or dot does not affect the captured group). -/
def keyChar? (t : Str) : Option Char :=
  match t with
  | [] => none
  | c :: rest =>
    if keyChars.contains c then some c
    else if c = '(' || c = '（' then
      match rest with
      | c2 :: _ => if keyChars.contains c2 then some c2 else none
      | [] => none
    else none

/-- Python `.upper()` restricted to the captured key characters. -/
def upperKey (c : Char) : Char :=
  if c = 'a' then 'A'
  else if c = 'b' then 'B'
  else if c = 'c' then 'C'
  else if c = 'd' then 'D'
  else c

/-- The digit-to-letter `mapping` dict of `extract_answer_key` (`mapping.get(val, val)`). -/
def mapKey (c : Char) : Char :=
  if c = '1' then 'A'
  else if c = '2' then 'B'
  else if c = '3' then 'C'
  else if c = '4' then 'D'
  else c

/-- `extract_answer_key` of `src/app.py`: strip, match the key pattern at the
start, uppercase and canonicalize digits to letters, else return `""`. -/
def extract_answer_key (text : Str) : Str :=
  match keyChar? (strip text) with
  | some c => [mapKey (upperKey c)]
  | none => []

/-- Whether the key regex of `extract_answer_key` matches the input at all. -/
def keyMatch (text : Str) : Bool := (keyChar? (strip text)).isSome

/-- Question-start test of `parse_exam_pdf`: `re.match(r"^\d+[\.\s]", line)`. -/
def qstart (s : Str) : Bool :=
  !(s.takeWhile isDigitCh).isEmpty &&
    (match s.dropWhile isDigitCh with
     | c :: _ => c = '.' || isSpace c
     | [] => false)

/-- Result of `split_options_anywhere`: a Python dict keyed by `"1"`..`"4"`.
`o1` is the entry for key `"1"`, and so on. -/
structure Opts where
  o1 : Option Str
  o2 : Option Str
  o3 : Option Str
  o4 : Option Str
deriving DecidableEq

/-- Truthiness of the Python dict returned by `split_options_anywhere`. -/
def Opts.isEmpty (o : Opts) : Bool :=
  o.o1.isNone && o.o2.isNone && o.o3.isNone && o.o4.isNone

/-- Python `out[n] = chunk` for digit `n`: later assignments overwrite. -/
def Opts.set (o : Opts) (d : Char) (v : Str) : Opts :=
  if d = '1' then { o with o1 := some v }
  else if d = '2' then { o with o2 := some v }
  else if d = '3' then { o with o3 := some v }
  else if d = '4' then { o with o4 := some v }
  else o

/-- Python slice `s[a:b]` for `0 ≤ a ≤ b ≤ len s`. -/
def slice (s : Str) (a b : Nat) : Str := (s.drop a).take (b - a)

/-- All matches of `re.finditer(r"[（(]([1-4])[）)]", s)`: start index and the
captured digit of each non-overlapping match, scanning left to right (a match
consumes its three characters, as `finditer` does). `i` is the index of the
head of `s` in the original line. -/
def optHits (s : Str) (i : Nat) : List (Nat × Char) :=
  match s with
  | p :: d :: q :: r =>
    if (p = '(' || p = '（') && (d = '1' || d = '2' || d = '3' || d = '4')
        && (q = ')' || q = '）') then
      (i, d) :: optHits r (i + 3)
    else
      optHits (d :: q :: r) (i + 1)
  | _ => []

/-- Build the dict of `split_options_anywhere` from the match list: each chunk
runs from its own marker to the start of the next marker (the last one to the
end of the line) and is stripped; assignments happen in match order, so a later
duplicate digit overwrites an earlier one. -/
def buildOpts (s : Str) : List (Nat × Char) → Opts → Opts
  | [], acc => acc
  | (st, d) :: rest, acc =>
    let en := match rest with
              | (st2, _) :: _ => st2
              | [] => s.length
    buildOpts s rest (acc.set d (strip (slice s st en)))

/-- `split_options_anywhere` of `parse_exam_pdf`. -/
def split_options_anywhere (s : Str) : Opts :=
  buildOpts s (optHits s 0) ⟨none, none, none, none⟩

/-- The parsed question record built by `parse_exam_pdf` (Python dict with a
fixed key set; `type` is the string `"choice"` or `"essay"`). -/
structure Question where
  question : Str
  option_A : Str
  option_B : Str
  option_C : Str
  option_D : Str
  correct_answer : Str
  explanation : Str
  topic : Str
  type : Str
deriving DecidableEq

/-- The fresh dict created at a question-number line in `parse_exam_pdf`. -/
def initQuestion (line : Str) : Question :=
  { question := line, option_A := [], option_B := [], option_C := [], option_D := [],
    correct_answer := [], explanation := [], topic := [], type := S "choice" }

/-- Python `"\n".join(l)`. -/
def joinNL : List Str → Str
  | [] => []
  | [x] => x
  | x :: y :: r => x ++ '\n' :: joinNL (y :: r)

/-- `finalize_question` of `parse_exam_pdf`: fewer than 3 non-empty option
slots reclassifies the question as `essay`, moves the populated option text
into `explanation` only when `explanation` is still empty, and clears the
option slots and `correct_answer`; otherwise the type is `choice`. -/
def finalize_question (q : Question) : Question :=
  let opts := [strip q.option_A, strip q.option_B, strip q.option_C, strip q.option_D]
  let non_empty := opts.filter (fun o => !o.isEmpty)
  if non_empty.length < 3 then
    let extra := ([q.option_A, q.option_B, q.option_C, q.option_D]).filter (fun o => !o.isEmpty)
    let expl := if !extra.isEmpty && q.explanation.isEmpty then joinNL extra else q.explanation
    { q with type := S "essay", explanation := expl,
             option_A := [], option_B := [], option_C := [], option_D := [],
             correct_answer := [] }
  else
    { q with type := S "choice" }

/-- The option slot `last_opt` points at (`"option_A"` .. `"option_D"`). -/
inductive OptField
  | A
  | B
  | C
  | D
deriving DecidableEq

/-- Read the option slot named by an `OptField` (Python `current_q[last_opt]`). -/
def getOptField (q : Question) : OptField → Str
  | OptField.A => q.option_A
  | OptField.B => q.option_B
  | OptField.C => q.option_C
  | OptField.D => q.option_D

/-- Write the option slot named by an `OptField`. -/
def setOptField (q : Question) (f : OptField) (v : Str) : Question :=
  match f with
  | OptField.A => { q with option_A := v }
  | OptField.B => { q with option_B := v }
  | OptField.C => { q with option_C := v }
  | OptField.D => { q with option_D := v }

/-- The option-assignment block of `parse_exam_pdf` (lines 370-381): for each
digit present in the split dict, in the order 1,2,3,4, overwrite the slot and
move `last_opt` to it. -/
def applyOpts (q : Question) (o : Opts) (lo : Option OptField) : Question × Option OptField :=
  let p := match o.o1 with
           | some v => ({ q with option_A := v }, some OptField.A)
           | none => (q, lo)
  let p := match o.o2 with
           | some v => ({ p.1 with option_B := v }, some OptField.B)
           | none => p
  let p := match o.o3 with
           | some v => ({ p.1 with option_C := v }, some OptField.C)
           | none => p
  match o.o4 with
  | some v => ({ p.1 with option_D := v }, some OptField.D)
  | none => p

/-- The state labels of the `parse_exam_pdf` state machine. -/
inductive PState
  | SEARCH_Q
  | READING_Q
  | READING_OPT
  | WAITING_FOR_ANS
  | READING_EXPL
deriving DecidableEq

/-- The loop state of `parse_exam_pdf`: emitted questions, the current
question (if any), the state label and `last_opt`. -/
structure Acc where
  questions : List Question
  cur : Option Question
  state : PState
  lastOpt : Option OptField
deriving DecidableEq

/-- A line `parse_exam_pdf` skips before any state logic: blank or footer. -/
def skipLine (s : Str) : Bool := s.isEmpty || is_footer s

/-- Emitting the current question (if any): `questions.append(finalize_question(current_q))`. -/
def flushQ (acc : Acc) : List Question :=
  match acc.cur with
  | some q => acc.questions ++ [finalize_question q]
  | none => acc.questions

/-- Update of the current question in the answer-marker branch with non-empty
`after` text (lines 338-343): set `correct_answer` if a key parses, and append
the tag-stripped text plus a newline to `explanation`. -/
def markerUpd (q : Question) (after : Str) : Question :=
  let ans := extract_answer_key after
  let q1 := if ans.isEmpty then q else { q with correct_answer := ans }
  { q1 with explanation := q1.explanation ++ after ++ ['\n'] }

/-- Update of the current question in the `WAITING_FOR_ANS` branch (lines
350-355): set `correct_answer` only if a key parses and none is set, and append
the raw line plus a newline to `explanation`. -/
def waitingUpd (q : Question) (line : Str) : Question :=
  let ans := extract_answer_key line
  let q1 := if !ans.isEmpty && q.correct_answer.isEmpty then { q with correct_answer := ans } else q
  { q1 with explanation := q1.explanation ++ line ++ ['\n'] }

/-- Stem accumulation in `READING_Q` (line 363): `current_q["question"] += " " + line`. -/
def stemUpd (q : Question) (line : Str) : Question :=
  { q with question := q.question ++ ' ' :: line }

/-- Option continuation (line 386): `current_q[last_opt] = (current_q[last_opt] + " " + line).strip()`. -/
def contUpd (q : Question) (f : OptField) (line : Str) : Question :=
  setOptField q f (strip (getOptField q f ++ ' ' :: line))

/-- Update of the current question in `READING_EXPL` (lines 390-395):
opportunistically set `correct_answer` when still empty, and append the line
plus a newline to `explanation`. -/
def explUpd (q : Question) (line : Str) : Question :=
  let q1 := if q.correct_answer.isEmpty then
              (let ans := extract_answer_key line
               if ans.isEmpty then q else { q with correct_answer := ans })
            else q
  { q1 with explanation := q1.explanation ++ line ++ ['\n'] }

/-- One iteration of the `for raw in lines` loop of `parse_exam_pdf`,
reproducing the branch order of the source: skip blank/footer lines, start a
new question on a question-number line, drop lines with no open question,
handle the answer marker, then `WAITING_FOR_ANS`, then the stem (falling
through to the option block when a marker appears), options and continuation
(with the orphan line dropped), then the explanation. -/
def processLine (acc : Acc) (raw : Str) : Acc :=
  let line := strip raw
  if skipLine line then acc
  else if qstart line then
    { questions := flushQ acc, cur := some (initQuestion line),
      state := PState.READING_Q, lastOpt := none }
  else
    match acc.cur with
    | none => acc
    | some q =>
      if is_answer_marker line then
        let after := afterMarker line
        if after.isEmpty then { acc with state := PState.WAITING_FOR_ANS, lastOpt := none }
        else { acc with cur := some (markerUpd q after), state := PState.READING_EXPL, lastOpt := none }
      else if acc.state = PState.WAITING_FOR_ANS then
        { acc with cur := some (waitingUpd q line), state := PState.READING_EXPL }
      else if acc.state = PState.READING_Q then
        if (split_options_anywhere line).isEmpty then
          { acc with cur := some (stemUpd q line) }
        else
          let r := applyOpts q (split_options_anywhere line) acc.lastOpt
          { acc with cur := some r.1, state := PState.READING_OPT, lastOpt := r.2 }
      else if acc.state = PState.READING_OPT then
        if (split_options_anywhere line).isEmpty then
          match acc.lastOpt with
          | some f => { acc with cur := some (contUpd q f line) }
          | none => acc
        else
          let r := applyOpts q (split_options_anywhere line) acc.lastOpt
          { acc with cur := some r.1, state := PState.READING_OPT, lastOpt := r.2 }
      else if acc.state = PState.READING_EXPL then
        { acc with cur := some (explUpd q line) }
      else acc

/-- `parse_exam_pdf` of `src/app.py`: fold the line loop over the split input
and flush the question still in progress at end of input. -/
def parse_exam_pdf (text : Str) : List Question :=
  flushQ ((splitLines text).foldl processLine
    { questions := [], cur := none, state := PState.SEARCH_Q, lastOpt := none })

/-! Dict-level model of `parse_exam_pdf`, for the no-exception claim.

The record model above cannot express Python's `KeyError`; this second model
keeps `current_q` as a genuine string-keyed dict and makes every subscript
read (`current_q["explanation"] += ...`, `current_q[last_opt]`,
`current_q["question"] += ...`) a fallible operation, with `none` standing for
an uncaught exception. `dict.get` reads keep their Python default semantics
and cannot fail. -/

/-- A Python dict from strings to strings, in insertion order. -/
abbrev PyDict := List (Str × Str)

/-- Python `d[k]` as a read: `none` models a `KeyError`. -/
def dread (d : PyDict) (k : Str) : Option Str :=
  (d.find? (fun p => decide (p.1 = k))).map (fun p => p.2)

/-- Python `d.get(k)` under truthiness: an absent key behaves like `""`. -/
def dget (d : PyDict) (k : Str) : Str := (dread d k).getD []

/-- Python `d[k] = v`: replace the (unique) entry for `k` in place, or append
a new one at the end (Python dict keys are unique and insertion-ordered). -/
def dset : PyDict → Str → Str → PyDict
  | [], k, v => [(k, v)]
  | p :: rest, k, v => if p.1 = k then (k, v) :: rest else p :: dset rest k v

/-- Python `d[k] += v` (a fallible read followed by a write). -/
def dincr (d : PyDict) (k : Str) (v : Str) : Option PyDict :=
  (dread d k).map (fun old => dset d k (old ++ v))

/-- The fresh question dict of `parse_exam_pdf`, at dict level. -/
def initDict (line : Str) : PyDict :=
  [(S "question", line), (S "option_A", []), (S "option_B", []), (S "option_C", []),
   (S "option_D", []), (S "correct_answer", []), (S "explanation", []),
   (S "topic", []), (S "type", S "choice")]

/-- `finalize_question` at dict level.  All its reads go through `dict.get`
with a default (or are guarded by a truthy `get`), so it cannot raise. -/
def finalize_d (q : PyDict) : PyDict :=
  let opts := [strip (dget q (S "option_A")), strip (dget q (S "option_B")),
               strip (dget q (S "option_C")), strip (dget q (S "option_D"))]
  let non_empty := opts.filter (fun o => !o.isEmpty)
  if non_empty.length < 3 then
    let q := dset q (S "type") (S "essay")
    let extra := ([dget q (S "option_A"), dget q (S "option_B"),
                   dget q (S "option_C"), dget q (S "option_D")]).filter (fun o => !o.isEmpty)
    let q := if !extra.isEmpty && (dget q (S "explanation")).isEmpty then
               dset q (S "explanation") (joinNL extra)
             else q
    let q := dset (dset (dset (dset q (S "option_A") []) (S "option_B") [])
                        (S "option_C") []) (S "option_D") []
    dset q (S "correct_answer") []
  else
    dset q (S "type") (S "choice")

/-- Option continuation at dict level: `current_q[last_opt]` may raise. -/
def contD (q : PyDict) (k : Str) (line : Str) : Option PyDict :=
  (dread q k).map (fun old => dset q k (strip (old ++ ' ' :: line)))

/-- One `if n in opts` block of the option assignment at dict level: when the
digit is present, overwrite the slot and move `last_opt` to its key. -/
def setD1 (p : PyDict × Option Str) (v? : Option Str) (key : Str) : PyDict × Option Str :=
  match v? with
  | some v => (dset p.1 key v, some key)
  | none => p

/-- The option-assignment block at dict level, threading `last_opt` as the raw
key string the Python code stores. -/
def applyOptsD (q : PyDict) (o : Opts) (lo : Option Str) : PyDict × Option Str :=
  setD1 (setD1 (setD1 (setD1 (q, lo) o.o1 (S "option_A")) o.o2 (S "option_B"))
               o.o3 (S "option_C")) o.o4 (S "option_D")

/-- Dict-level analogue of `markerUpd`; the `+=` read of `"explanation"` is
the fallible step. -/
def markerUpdD (q : PyDict) (after : Str) : Option PyDict :=
  let ans := extract_answer_key after
  let q1 := if ans.isEmpty then q else dset q (S "correct_answer") ans
  dincr q1 (S "explanation") (after ++ ['\n'])

/-- Dict-level analogue of `waitingUpd`. -/
def waitingUpdD (q : PyDict) (line : Str) : Option PyDict :=
  let ans := extract_answer_key line
  let q1 := if !ans.isEmpty && (dget q (S "correct_answer")).isEmpty then
              dset q (S "correct_answer") ans
            else q
  dincr q1 (S "explanation") (line ++ ['\n'])

/-- Dict-level analogue of `stemUpd`; the `+=` read of `"question"` is the
fallible step. -/
def stemUpdD (q : PyDict) (line : Str) : Option PyDict :=
  dincr q (S "question") (' ' :: line)

/-- Dict-level analogue of `explUpd`. -/
def explUpdD (q : PyDict) (line : Str) : Option PyDict :=
  let q1 := if (dget q (S "correct_answer")).isEmpty then
              (let ans := extract_answer_key line
               if ans.isEmpty then q else dset q (S "correct_answer") ans)
            else q
  dincr q1 (S "explanation") (line ++ ['\n'])

/-- The loop state of `parse_exam_pdf` at dict level. -/
structure AccD where
  questions : List PyDict
  cur : Option PyDict
  state : PState
  lastOpt : Option Str

/-- Emitting the current dict (if any). -/
def flushD (acc : AccD) : List PyDict :=
  match acc.cur with
  | some q => acc.questions ++ [finalize_d q]
  | none => acc.questions

/-- One loop iteration of `parse_exam_pdf` at dict level; `none` models an
exception escaping the loop body. -/
def processLineD (acc : AccD) (raw : Str) : Option AccD :=
  let line := strip raw
  if skipLine line then some acc
  else if qstart line then
    some { questions := flushD acc, cur := some (initDict line),
           state := PState.READING_Q, lastOpt := none }
  else
    match acc.cur with
    | none => some acc
    | some q =>
      if is_answer_marker line then
        let after := afterMarker line
        if after.isEmpty then some { acc with state := PState.WAITING_FOR_ANS, lastOpt := none }
        else
          (markerUpdD q after).map
            (fun q2 => { acc with cur := some q2, state := PState.READING_EXPL, lastOpt := none })
      else if acc.state = PState.WAITING_FOR_ANS then
        (waitingUpdD q line).map
          (fun q2 => { acc with cur := some q2, state := PState.READING_EXPL })
      else if acc.state = PState.READING_Q then
        if (split_options_anywhere line).isEmpty then
          (stemUpdD q line).map (fun q2 => { acc with cur := some q2 })
        else
          let r := applyOptsD q (split_options_anywhere line) acc.lastOpt
          some { acc with cur := some r.1, state := PState.READING_OPT, lastOpt := r.2 }
      else if acc.state = PState.READING_OPT then
        if (split_options_anywhere line).isEmpty then
          match acc.lastOpt with
          | some k => (contD q k line).map (fun q2 => { acc with cur := some q2 })
          | none => some acc
        else
          let r := applyOptsD q (split_options_anywhere line) acc.lastOpt
          some { acc with cur := some r.1, state := PState.READING_OPT, lastOpt := r.2 }
      else if acc.state = PState.READING_EXPL then
        (explUpdD q line).map (fun q2 => { acc with cur := some q2 })
      else some acc

/-- `parse_exam_pdf` at dict level: `none` models an exception reaching the
caller; `some qs` is normal termination with the emitted list. -/
def parse_exam_pdf_dict (text : Str) : Option (List PyDict) :=
  ((splitLines text).foldlM processLineD
      { questions := [], cur := none, state := PState.SEARCH_Q, lastOpt := none }).map flushD

/-! Helper predicates used by the theorems. -/

/-- Substring test: does `p` occur contiguously inside `s`. -/
def occursIn (p : Str) : Str → Bool
  | [] => p.isEmpty
  | c :: r => (p.isPrefixOf (c :: r)) || occursIn p r

/-- Does the text `p` occur in any text field of an emitted question. -/
def inQuestion (p : Str) (q : Question) : Bool :=
  occursIn p q.question || occursIn p q.option_A || occursIn p q.option_B ||
    occursIn p q.option_C || occursIn p q.option_D || occursIn p q.explanation

/-- The claim C5 counting predicate: a stripped, non-empty, non-footer line
matching the question-start pattern. -/
def countQ (text : Str) : Nat :=
  (splitLines text).countP
    (fun l => (!(strip l).isEmpty && !is_footer (strip l)) && qstart (strip l))

/-- Number of emitted plus in-progress questions of a loop state. -/
def gauge (acc : Acc) : Nat :=
  acc.questions.length + (match acc.cur with | some _ => 1 | none => 0)

/-- The key set a question dict always carries (used by the no-exception proof). -/
def hasKeysD (q : PyDict) : Bool :=
  (dread q (S "question")).isSome && (dread q (S "option_A")).isSome &&
  (dread q (S "option_B")).isSome && (dread q (S "option_C")).isSome &&
  (dread q (S "option_D")).isSome && (dread q (S "correct_answer")).isSome &&
  (dread q (S "explanation")).isSome

/-- The strings the Python variable `last_opt` can hold. -/
def optKeyD (k : Str) : Bool :=
  k = S "option_A" || k = S "option_B" || k = S "option_C" || k = S "option_D"

/-- Loop invariant of the dict-level parser: the current dict has all the keys
the loop body reads, and `last_opt` names an option slot. -/
def InvD (acc : AccD) : Prop :=
  (∀ q, acc.cur = some q → hasKeysD q = true) ∧
  (∀ k, acc.lastOpt = some k → optKeyD k = true)

/-- Invariant for the non-empty-question-text claim: every emitted question
and the question in progress have a non-empty `question` field. -/
def goodAcc (acc : Acc) : Prop :=
  (∀ q ∈ acc.questions, q.question ≠ []) ∧ (∀ q, acc.cur = some q → q.question ≠ [])

/-- Exhaustive description of what one iteration of the `parse_exam_pdf` loop
does with a line, one constructor per branch of the source in source order.
The third index is the loop state after the iteration. -/
inductive LineCase (acc : Acc) (raw : Str) : Acc → Prop
  | skip (hs : skipLine (strip raw) = true) : LineCase acc raw acc
  | newQ (hs : skipLine (strip raw) = false) (hq : qstart (strip raw) = true) :
      LineCase acc raw
        { questions := flushQ acc, cur := some (initQuestion (strip raw)),
          state := PState.READING_Q, lastOpt := none }
  | noCur (hs : skipLine (strip raw) = false) (hq : qstart (strip raw) = false)
      (hc : acc.cur = none) : LineCase acc raw acc
  | markerWait (q : Question) (hc : acc.cur = some q) (hs : skipLine (strip raw) = false)
      (hq : qstart (strip raw) = false) (hm : is_answer_marker (strip raw) = true)
      (ha : (afterMarker (strip raw)).isEmpty = true) :
      LineCase acc raw { acc with state := PState.WAITING_FOR_ANS, lastOpt := none }
  | markerText (q : Question) (hc : acc.cur = some q) (hs : skipLine (strip raw) = false)
      (hq : qstart (strip raw) = false) (hm : is_answer_marker (strip raw) = true)
      (ha : (afterMarker (strip raw)).isEmpty = false) :
      LineCase acc raw
        { acc with cur := some (markerUpd q (afterMarker (strip raw))),
                   state := PState.READING_EXPL, lastOpt := none }
  | waiting (q : Question) (hc : acc.cur = some q) (hs : skipLine (strip raw) = false)
      (hq : qstart (strip raw) = false) (hm : is_answer_marker (strip raw) = false)
      (hst : acc.state = PState.WAITING_FOR_ANS) :
      LineCase acc raw
        { acc with cur := some (waitingUpd q (strip raw)), state := PState.READING_EXPL }
  | stem (q : Question) (hc : acc.cur = some q) (hs : skipLine (strip raw) = false)
      (hq : qstart (strip raw) = false) (hm : is_answer_marker (strip raw) = false)
      (hst : acc.state = PState.READING_Q)
      (hsp : (split_options_anywhere (strip raw)).isEmpty = true) :
      LineCase acc raw { acc with cur := some (stemUpd q (strip raw)) }
  | optLine (q : Question) (hc : acc.cur = some q) (hs : skipLine (strip raw) = false)
      (hq : qstart (strip raw) = false) (hm : is_answer_marker (strip raw) = false)
      (hst : acc.state = PState.READING_Q ∨ acc.state = PState.READING_OPT)
      (hsp : (split_options_anywhere (strip raw)).isEmpty = false) :
      LineCase acc raw
        { acc with
          cur := some (applyOpts q (split_options_anywhere (strip raw)) acc.lastOpt).1,
          state := PState.READING_OPT,
          lastOpt := (applyOpts q (split_options_anywhere (strip raw)) acc.lastOpt).2 }
  | optCont (q : Question) (f : OptField) (hc : acc.cur = some q)
      (hs : skipLine (strip raw) = false) (hq : qstart (strip raw) = false)
      (hm : is_answer_marker (strip raw) = false) (hst : acc.state = PState.READING_OPT)
      (hsp : (split_options_anywhere (strip raw)).isEmpty = true)
      (hlo : acc.lastOpt = some f) :
      LineCase acc raw { acc with cur := some (contUpd q f (strip raw)) }
  | optDrop (q : Question) (hc : acc.cur = some q) (hs : skipLine (strip raw) = false)
      (hq : qstart (strip raw) = false) (hm : is_answer_marker (strip raw) = false)
      (hst : acc.state = PState.READING_OPT)
      (hsp : (split_options_anywhere (strip raw)).isEmpty = true)
      (hlo : acc.lastOpt = none) : LineCase acc raw acc
  | expl (q : Question) (hc : acc.cur = some q) (hs : skipLine (strip raw) = false)
      (hq : qstart (strip raw) = false) (hm : is_answer_marker (strip raw) = false)
      (hst : acc.state = PState.READING_EXPL) :
      LineCase acc raw { acc with cur := some (explUpd q (strip raw)) }
  | search (q : Question) (hc : acc.cur = some q) (hs : skipLine (strip raw) = false)
      (hq : qstart (strip raw) = false) (hm : is_answer_marker (strip raw) = false)
      (hst : acc.state = PState.SEARCH_Q) : LineCase acc raw acc

/-! Theorems. -/

/-- Every loop iteration takes exactly one of the branches of `LineCase`. -/
theorem processLine_cases (acc : Acc) (raw : Str) : LineCase acc raw (processLine acc raw) := by
  by_cases hs : skipLine (strip raw) = true
  · have h : processLine acc raw = acc := by simp [processLine, hs]
    rw [h]; exact LineCase.skip hs
  simp only [Bool.not_eq_true] at hs
  by_cases hq : qstart (strip raw) = true
  · have h : processLine acc raw =
        { questions := flushQ acc, cur := some (initQuestion (strip raw)),
          state := PState.READING_Q, lastOpt := none } := by simp [processLine, hs, hq]
    rw [h]; exact LineCase.newQ hs hq
  simp only [Bool.not_eq_true] at hq
  cases hc : acc.cur with
  | none =>
    have h : processLine acc raw = acc := by simp [processLine, hs, hq, hc]
    rw [h]; exact LineCase.noCur hs hq hc
  | some q =>
    by_cases hm : is_answer_marker (strip raw) = true
    · by_cases ha : (afterMarker (strip raw)).isEmpty = true
      · have h : processLine acc raw = { acc with state := PState.WAITING_FOR_ANS, lastOpt := none } := by
          simp [processLine, hs, hq, hc, hm, ha]
        rw [h]; exact LineCase.markerWait q hc hs hq hm ha
      · simp only [Bool.not_eq_true] at ha
        have h : processLine acc raw =
            { acc with cur := some (markerUpd q (afterMarker (strip raw))),
                       state := PState.READING_EXPL, lastOpt := none } := by
          simp [processLine, hs, hq, hc, hm, ha]
        rw [h]; exact LineCase.markerText q hc hs hq hm ha
    · simp only [Bool.not_eq_true] at hm
      cases hst : acc.state with
      | SEARCH_Q =>
        have h : processLine acc raw = acc := by simp [processLine, hs, hq, hc, hm, hst]
        rw [h]; exact LineCase.search q hc hs hq hm hst
      | READING_Q =>
        by_cases hsp : (split_options_anywhere (strip raw)).isEmpty = true
        · have h : processLine acc raw = { acc with cur := some (stemUpd q (strip raw)) } := by
            simp [processLine, hs, hq, hc, hm, hst, hsp]
          rw [h]; exact LineCase.stem q hc hs hq hm hst hsp
        · simp only [Bool.not_eq_true] at hsp
          have h : processLine acc raw =
              { acc with
                cur := some (applyOpts q (split_options_anywhere (strip raw)) acc.lastOpt).1,
                state := PState.READING_OPT,
                lastOpt := (applyOpts q (split_options_anywhere (strip raw)) acc.lastOpt).2 } := by
            simp [processLine, hs, hq, hc, hm, hst, hsp]
          rw [h]; exact LineCase.optLine q hc hs hq hm (Or.inl hst) hsp
      | READING_OPT =>
        by_cases hsp : (split_options_anywhere (strip raw)).isEmpty = true
        · cases hlo : acc.lastOpt with
          | none =>
            have h : processLine acc raw = acc := by
              simp [processLine, hs, hq, hc, hm, hst, hsp, hlo]
            rw [h]; exact LineCase.optDrop q hc hs hq hm hst hsp hlo
          | some f =>
            have h : processLine acc raw = { acc with cur := some (contUpd q f (strip raw)) } := by
              simp [processLine, hs, hq, hc, hm, hst, hsp, hlo]
            rw [h]; exact LineCase.optCont q f hc hs hq hm hst hsp hlo
        · simp only [Bool.not_eq_true] at hsp
          have h : processLine acc raw =
              { acc with
                cur := some (applyOpts q (split_options_anywhere (strip raw)) acc.lastOpt).1,
                state := PState.READING_OPT,
                lastOpt := (applyOpts q (split_options_anywhere (strip raw)) acc.lastOpt).2 } := by
            simp [processLine, hs, hq, hc, hm, hst, hsp]
          rw [h]; exact LineCase.optLine q hc hs hq hm (Or.inr hst) hsp
      | WAITING_FOR_ANS =>
        have h : processLine acc raw =
            { acc with cur := some (waitingUpd q (strip raw)), state := PState.READING_EXPL } := by
          simp [processLine, hs, hq, hc, hm, hst]
        rw [h]; exact LineCase.waiting q hc hs hq hm hst
      | READING_EXPL =>
        have h : processLine acc raw = { acc with cur := some (explUpd q (strip raw)) } := by
          simp [processLine, hs, hq, hc, hm, hst]
        rw [h]; exact LineCase.expl q hc hs hq hm hst

/-- Non-empty lists are not `isEmpty`. -/
theorem isEmpty_false_of_ne_nil {l : Str} (h : l ≠ []) : l.isEmpty = false := by
  cases l with
  | nil => exact absurd rfl h
  | cons a r => rfl

/-- `finalize_question` never changes the question stem. -/
theorem finalize_question_question (q : Question) :
    (finalize_question q).question = q.question := by
  unfold finalize_question
  dsimp only
  split
  · rfl
  · rfl

/-- `markerUpd` never changes the question stem. -/
theorem markerUpd_question (q : Question) (a : Str) : (markerUpd q a).question = q.question := by
  unfold markerUpd
  dsimp only
  split
  · rfl
  · rfl

/-- `markerUpd` extends the explanation with the tag-stripped text. -/
theorem markerUpd_explanation (q : Question) (a : Str) :
    (markerUpd q a).explanation = q.explanation ++ a ++ ['\n'] := by
  unfold markerUpd
  dsimp only
  split
  · rfl
  · rfl

/-- Option slots are untouched by `markerUpd`. -/
theorem markerUpd_options (q : Question) (a : Str) :
    (markerUpd q a).option_A = q.option_A ∧ (markerUpd q a).option_B = q.option_B ∧
    (markerUpd q a).option_C = q.option_C ∧ (markerUpd q a).option_D = q.option_D := by
  unfold markerUpd
  dsimp only
  split
  · exact ⟨rfl, rfl, rfl, rfl⟩
  · exact ⟨rfl, rfl, rfl, rfl⟩

/-- `waitingUpd` never changes the question stem. -/
theorem waitingUpd_question (q : Question) (l : Str) : (waitingUpd q l).question = q.question := by
  unfold waitingUpd
  dsimp only
  split
  · rfl
  · rfl

/-- `waitingUpd` extends the explanation with the raw line. -/
theorem waitingUpd_explanation (q : Question) (l : Str) :
    (waitingUpd q l).explanation = q.explanation ++ l ++ ['\n'] := by
  unfold waitingUpd
  dsimp only
  split
  · rfl
  · rfl

/-- Option slots are untouched by `waitingUpd`. -/
theorem waitingUpd_options (q : Question) (l : Str) :
    (waitingUpd q l).option_A = q.option_A ∧ (waitingUpd q l).option_B = q.option_B ∧
    (waitingUpd q l).option_C = q.option_C ∧ (waitingUpd q l).option_D = q.option_D := by
  unfold waitingUpd
  dsimp only
  split
  · exact ⟨rfl, rfl, rfl, rfl⟩
  · exact ⟨rfl, rfl, rfl, rfl⟩

/-- An already-set answer key survives `waitingUpd` (first match wins there). -/
theorem waitingUpd_correct_of_ne (q : Question) (l : Str) (h : q.correct_answer ≠ []) :
    (waitingUpd q l).correct_answer = q.correct_answer := by
  unfold waitingUpd
  dsimp only
  rw [isEmpty_false_of_ne_nil h]
  simp

/-- The exact answer key produced by `waitingUpd`. -/
theorem waitingUpd_correct (q : Question) (l : Str) :
    (waitingUpd q l).correct_answer =
      (if extract_answer_key l ≠ [] ∧ q.correct_answer = [] then extract_answer_key l
       else q.correct_answer) := by
  unfold waitingUpd
  dsimp only
  by_cases h1 : extract_answer_key l = []
  · simp [h1]
  · by_cases h2 : q.correct_answer = []
    · simp [isEmpty_false_of_ne_nil h1, h1, h2]
    · simp [isEmpty_false_of_ne_nil h1, isEmpty_false_of_ne_nil h2, h1, h2]

/-- `explUpd` never changes the question stem. -/
theorem explUpd_question (q : Question) (l : Str) : (explUpd q l).question = q.question := by
  unfold explUpd
  dsimp only
  split
  · split
    · rfl
    · rfl
  · rfl

/-- `explUpd` extends the explanation with the raw line. -/
theorem explUpd_explanation (q : Question) (l : Str) :
    (explUpd q l).explanation = q.explanation ++ l ++ ['\n'] := by
  unfold explUpd
  dsimp only
  split
  · split
    · rfl
    · rfl
  · rfl

/-- An already-set answer key survives `explUpd` (late recovery only fills gaps). -/
theorem explUpd_correct_of_ne (q : Question) (l : Str) (h : q.correct_answer ≠ []) :
    (explUpd q l).correct_answer = q.correct_answer := by
  unfold explUpd
  dsimp only
  rw [isEmpty_false_of_ne_nil h]
  simp

/-- `stemUpd` only changes the question stem. -/
theorem stemUpd_fields (q : Question) (l : Str) :
    (stemUpd q l).correct_answer = q.correct_answer ∧
    (stemUpd q l).explanation = q.explanation := ⟨rfl, rfl⟩

/-- `setOptField` never changes the stem, answer key or explanation. -/
theorem setOptField_fields (q : Question) (f : OptField) (v : Str) :
    (setOptField q f v).question = q.question ∧
    (setOptField q f v).correct_answer = q.correct_answer ∧
    (setOptField q f v).explanation = q.explanation := by
  cases f
  · exact ⟨rfl, rfl, rfl⟩
  · exact ⟨rfl, rfl, rfl⟩
  · exact ⟨rfl, rfl, rfl⟩
  · exact ⟨rfl, rfl, rfl⟩

/-- `applyOpts` never changes the stem, answer key or explanation. -/
theorem applyOpts_fields (q : Question) (o : Opts) (lo : Option OptField) :
    (applyOpts q o lo).1.question = q.question ∧
    (applyOpts q o lo).1.correct_answer = q.correct_answer ∧
    (applyOpts q o lo).1.explanation = q.explanation := by
  rcases o with ⟨o1, o2, o3, o4⟩
  cases o1 <;> cases o2 <;> cases o3 <;> cases o4 <;> exact ⟨rfl, rfl, rfl⟩

/-- The flushed output is as long as the number of open-plus-emitted questions. -/
theorem flushQ_length (acc : Acc) : (flushQ acc).length = gauge acc := by
  unfold flushQ gauge
  cases acc.cur
  · simp
  · simp

/-- The counting predicate of claim C5 factors through `skipLine`. -/
theorem qpred_eq (raw : Str) :
    ((!(strip raw).isEmpty && !is_footer (strip raw)) && qstart (strip raw)) =
      (!skipLine (strip raw) && qstart (strip raw)) := by
  unfold skipLine
  cases h1 : (strip raw).isEmpty <;> cases h2 : is_footer (strip raw) <;> simp

/-- Each loop iteration raises the open-plus-emitted count by one exactly on a
stripped, non-empty, non-footer question-start line. -/
theorem gauge_processLine (acc : Acc) (raw : Str) :
    gauge (processLine acc raw) =
      gauge acc +
        (if (!skipLine (strip raw) && qstart (strip raw)) = true then 1 else 0) := by
  have h := processLine_cases acc raw
  generalize hres : processLine acc raw = res at h ⊢
  cases h with
  | skip hs => simp [hs]
  | newQ hs hq => cases hcur : acc.cur <;> simp [hs, hq, gauge, flushQ, hcur]
  | noCur hs hq hc => simp [hq]
  | markerWait q hc hs hq hm ha => simp [hq, gauge, hc]
  | markerText q hc hs hq hm ha => simp [hq, gauge, hc]
  | waiting q hc hs hq hm hst => simp [hq, gauge, hc]
  | stem q hc hs hq hm hst hsp => simp [hq, gauge, hc]
  | optLine q hc hs hq hm hst hsp => simp [hq, gauge, hc]
  | optCont q f hc hs hq hm hst hsp hlo => simp [hq, gauge, hc]
  | optDrop q hc hs hq hm hst hsp hlo => simp [hq]
  | expl q hc hs hq hm hst => simp [hq, gauge, hc]
  | search q hc hs hq hm hst => simp [hq]

/-- Folding the loop over a line list adds one question per counted line. -/
theorem gauge_foldl (ls : List Str) : ∀ acc : Acc,
    gauge (ls.foldl processLine acc) =
      gauge acc + ls.countP (fun l => !skipLine (strip l) && qstart (strip l)) := by
  induction ls with
  | nil => intro acc; simp
  | cons l ls ih =>
    intro acc
    rw [List.foldl_cons, ih, gauge_processLine]
    simp only [List.countP_cons]
    omega

/-- Claim C5: for every input text, the length of the sequence returned by
`parse_exam_pdf` equals the number of stripped, non-empty, non-footer lines
matching the question-start pattern (one or more digits followed by a dot or
whitespace): every opened question is eventually emitted, including the last
one at end of input. -/
theorem claim_C5_question_count (text : Str) : (parse_exam_pdf text).length = countQ text := by
  unfold parse_exam_pdf countQ
  rw [flushQ_length, gauge_foldl]
  simp only [qpred_eq]
  simp [gauge]

/-- With no open question, a non-question-start line leaves the loop state
untouched. -/
theorem processLine_nocur (acc : Acc) (raw : Str) (hc : acc.cur = none)
    (hq : qstart (strip raw) = false) : processLine acc raw = acc := by
  have h := processLine_cases acc raw
  generalize hres : processLine acc raw = res at h
  cases h with
  | skip hs => rfl
  | noCur hs hq2 hc2 => rfl
  | newQ hs hq2 => rw [hq] at hq2; exact absurd hq2 (by simp)
  | markerWait q hc2 hs hq2 hm ha => rw [hc] at hc2; exact Option.noConfusion hc2
  | markerText q hc2 hs hq2 hm ha => rw [hc] at hc2; exact Option.noConfusion hc2
  | waiting q hc2 hs hq2 hm hst => rw [hc] at hc2; exact Option.noConfusion hc2
  | stem q hc2 hs hq2 hm hst hsp => rw [hc] at hc2; exact Option.noConfusion hc2
  | optLine q hc2 hs hq2 hm hst hsp => rw [hc] at hc2; exact Option.noConfusion hc2
  | optCont q f hc2 hs hq2 hm hst hsp hlo => rw [hc] at hc2; exact Option.noConfusion hc2
  | optDrop q hc2 hs hq2 hm hst hsp hlo => rfl
  | expl q hc2 hs hq2 hm hst => rw [hc] at hc2; exact Option.noConfusion hc2
  | search q hc2 hs hq2 hm hst => rfl

/-- Claim C9: on every input in which no line, after stripping, matches the
question-start pattern — in particular the empty string — `parse_exam_pdf`
returns the empty sequence, whatever other content the input contains. -/
theorem claim_C9_no_question_lines (text : Str)
    (h : ∀ l ∈ splitLines text, qstart (strip l) = false) : parse_exam_pdf text = [] := by
  unfold parse_exam_pdf
  have h2 : ∀ (ls : List Str) (acc : Acc), (∀ l ∈ ls, qstart (strip l) = false) →
      acc.cur = none → ls.foldl processLine acc = acc := by
    intro ls
    induction ls with
    | nil => intro acc _ _; rfl
    | cons l ls ih =>
      intro acc hall hc
      rw [List.foldl_cons, processLine_nocur acc l hc (hall l (by simp))]
      exact ih acc (fun x hx => hall x (by simp [hx])) hc
  rw [h2 _ _ h rfl]
  rfl

/-- Claim C9 witness: the empty input yields the empty question list. -/
theorem claim_C9_witness : parse_exam_pdf [] = [] :=
  claim_C9_no_question_lines [] (by decide)

/-- A line matching the question-start pattern is non-empty. -/
theorem qstart_ne_nil {s : Str} (h : qstart s = true) : s ≠ [] := by
  intro he
  subst he
  simp [qstart] at h

/-- Everything `flushQ` emits from a good loop state has a non-empty stem. -/
theorem flushQ_good {acc : Acc} (h : goodAcc acc) : ∀ q ∈ flushQ acc, q.question ≠ [] := by
  obtain ⟨hqs, hcur⟩ := h
  intro q hq
  unfold flushQ at hq
  cases hc : acc.cur with
  | none => rw [hc] at hq; exact hqs q hq
  | some q0 =>
    rw [hc] at hq
    rcases List.mem_append.mp hq with h2 | h2
    · exact hqs q h2
    · have h3 : q = finalize_question q0 := by simpa using h2
      rw [h3, finalize_question_question]
      exact hcur q0 hc

/-- Each loop iteration preserves the non-empty-stem invariant. -/
theorem goodAcc_processLine (acc : Acc) (raw : Str) (h : goodAcc acc) :
    goodAcc (processLine acc raw) := by
  have hflush := flushQ_good h
  obtain ⟨hqs, hcur⟩ := h
  have hcases := processLine_cases acc raw
  generalize hres : processLine acc raw = res at hcases
  cases hcases with
  | skip hs => exact ⟨hqs, hcur⟩
  | noCur hs hq hc => exact ⟨hqs, hcur⟩
  | optDrop q hc hs hq hm hst hsp hlo => exact ⟨hqs, hcur⟩
  | search q hc hs hq hm hst => exact ⟨hqs, hcur⟩
  | newQ hs hq =>
    refine ⟨hflush, ?_⟩
    intro q2 h2
    have h3 : q2 = initQuestion (strip raw) := (Option.some.inj h2).symm
    rw [h3]
    exact qstart_ne_nil hq
  | markerWait q hc hs hq hm ha => exact ⟨hqs, hcur⟩
  | markerText q hc hs hq hm ha =>
    refine ⟨hqs, ?_⟩
    intro q2 h2
    have h3 : q2 = markerUpd q (afterMarker (strip raw)) := (Option.some.inj h2).symm
    rw [h3, markerUpd_question]
    exact hcur q hc
  | waiting q hc hs hq hm hst =>
    refine ⟨hqs, ?_⟩
    intro q2 h2
    have h3 : q2 = waitingUpd q (strip raw) := (Option.some.inj h2).symm
    rw [h3, waitingUpd_question]
    exact hcur q hc
  | stem q hc hs hq hm hst hsp =>
    refine ⟨hqs, ?_⟩
    intro q2 h2
    have h3 : q2 = stemUpd q (strip raw) := (Option.some.inj h2).symm
    rw [h3]
    simp [stemUpd]
  | optLine q hc hs hq hm hst hsp =>
    refine ⟨hqs, ?_⟩
    intro q2 h2
    have h3 : q2 = (applyOpts q (split_options_anywhere (strip raw)) acc.lastOpt).1 :=
      (Option.some.inj h2).symm
    rw [h3, (applyOpts_fields q _ acc.lastOpt).1]
    exact hcur q hc
  | optCont q f hc hs hq hm hst hsp hlo =>
    refine ⟨hqs, ?_⟩
    intro q2 h2
    have h3 : q2 = contUpd q f (strip raw) := (Option.some.inj h2).symm
    rw [h3]
    unfold contUpd
    rw [(setOptField_fields q f _).1]
    exact hcur q hc
  | expl q hc hs hq hm hst =>
    refine ⟨hqs, ?_⟩
    intro q2 h2
    have h3 : q2 = explUpd q (strip raw) := (Option.some.inj h2).symm
    rw [h3, explUpd_question]
    exact hcur q hc

/-- Claim C10: every Question record returned by `parse_exam_pdf` has a
non-empty `question` field — the stem is seeded from the non-empty
question-number line and only ever appended to. -/
theorem claim_C10_nonempty_question (text : Str) (q : Question)
    (h : q ∈ parse_exam_pdf text) : q.question ≠ [] := by
  unfold parse_exam_pdf at h
  have hfold : ∀ (ls : List Str) (acc : Acc), goodAcc acc →
      goodAcc (ls.foldl processLine acc) := by
    intro ls
    induction ls with
    | nil => intro acc hg; exact hg
    | cons l ls ih =>
      intro acc hg
      rw [List.foldl_cons]
      exact ih _ (goodAcc_processLine acc l hg)
  have hg : goodAcc ((splitLines text).foldl processLine
      { questions := [], cur := none, state := PState.SEARCH_Q, lastOpt := none }) := by
    refine hfold _ _ ⟨?_, ?_⟩
    · intro q2 h2; cases h2
    · intro q2 h2; cases h2
  exact flushQ_good hg q h

/-- Claim C10 witness: the single question parsed from the input `"1. x"` has
a non-empty stem. -/
theorem claim_C10_witness :
    ({ question := S "1. x", option_A := [], option_B := [], option_C := [], option_D := [],
       correct_answer := [], explanation := [], topic := [],
       type := S "essay" } : Question).question ≠ [] :=
  claim_C10_nonempty_question (S "1. x") _ (by decide)

/-- Claim C3, corrected.  The original claim is false: the answer-marker
branch assigns `correct_answer` unconditionally, so a later marker line
overwrites an earlier value (see the counterexample).  Amended claim: within
one question's lifetime, once `correct_answer` is non-empty, no later line
that is neither a question-start line nor an answer-marker line changes it —
first-match-wins holds at the `WAITING_FOR_ANS` site and at the opportunistic
re-extraction from `READING_EXPL` lines, but not at the answer-marker site. -/
theorem claim_C3_amended_first_match (acc : Acc) (q : Question) (raw : Str)
    (hc : acc.cur = some q) (hne : q.correct_answer ≠ [])
    (hq : qstart (strip raw) = false) (hm : is_answer_marker (strip raw) = false) :
    (processLine acc raw).cur.map Question.correct_answer = some q.correct_answer := by
  have h := processLine_cases acc raw
  generalize hres : processLine acc raw = res at h ⊢
  cases h with
  | skip hs => rw [hc]; rfl
  | newQ hs hq2 => rw [hq] at hq2; exact Bool.noConfusion hq2
  | noCur hs hq2 hc2 => rw [hc] at hc2; exact Option.noConfusion hc2
  | markerWait q2 hc2 hs hq2 hm2 ha => rw [hm] at hm2; exact Bool.noConfusion hm2
  | markerText q2 hc2 hs hq2 hm2 ha => rw [hm] at hm2; exact Bool.noConfusion hm2
  | waiting q2 hc2 hs hq2 hm2 hst =>
    rw [hc] at hc2
    rw [← Option.some.inj hc2]
    simp [waitingUpd_correct_of_ne _ _ hne]
  | stem q2 hc2 hs hq2 hm2 hst hsp =>
    rw [hc] at hc2
    rw [← Option.some.inj hc2]
    rfl
  | optLine q2 hc2 hs hq2 hm2 hst hsp =>
    rw [hc] at hc2
    rw [← Option.some.inj hc2]
    simp [(applyOpts_fields q _ acc.lastOpt).2.1]
  | optCont q2 f hc2 hs hq2 hm2 hst hsp hlo =>
    rw [hc] at hc2
    rw [← Option.some.inj hc2]
    simp [contUpd, (setOptField_fields q f _).2.1]
  | optDrop q2 hc2 hs hq2 hm2 hst hsp hlo => rw [hc]; rfl
  | expl q2 hc2 hs hq2 hm2 hst =>
    rw [hc] at hc2
    rw [← Option.some.inj hc2]
    simp [explUpd_correct_of_ne _ _ hne]
  | search q2 hc2 hs hq2 hm2 hst => rw [hc]; rfl

/-- Claim C3 counterexample: on this input the first marker line sets the
answer key to `B` (from `(2)`); the second marker line then overwrites it to
`C`, so the emitted key is `C` although a first-match-wins answer key would
have stayed `B` — the answer-marker detection site does overwrite. -/
theorem claim_C3_counterexample :
    parse_exam_pdf (S "1. Q\n(1)a(2)b(3)c\n[解:] (2)\n[解:] (3)") =
      [{ question := S "1. Q", option_A := S "(1)a", option_B := S "(2)b",
         option_C := S "(3)c", option_D := [], correct_answer := S "C",
         explanation := S "(2)\n(3)\n", topic := [], type := S "choice" }] ∧
    extract_answer_key (S "(2)") = S "B" ∧ S "C" ≠ S "B" :=
  ⟨by decide, by decide, by decide⟩

/-- Claim C3 witness: a `READING_EXPL` line carrying a parsable key does not
overwrite an already-set answer key. -/
theorem claim_C3_witness :
    (processLine
        { questions := [],
          cur := some { question := S "1. Q", option_A := [], option_B := [], option_C := [],
                        option_D := [], correct_answer := S "B", explanation := [], topic := [],
                        type := S "choice" },
          state := PState.READING_EXPL, lastOpt := none }
        (S "(3)")).cur.map Question.correct_answer = some (S "B") :=
  claim_C3_amended_first_match _ _ _ rfl (by decide) (by decide) (by decide)

/-- Claim C8, corrected.  The original claim is false: the answer-marker check
runs before the `WAITING_FOR_ANS` branch, so a next line that itself carries
an answer tag is taken by the marker branch (a bare tag even keeps the state
at `WAITING_FOR_ANS` and appends nothing — see the counterexample).  Amended
claim: while in `WAITING_FOR_ANS`, the next non-empty, non-footer line that is
neither a question-start line nor an answer-marker line is scanned for an
answer key (set only if none is set), appended raw to the explanation
regardless, and the state moves to `READING_EXPL` after that one line. -/
theorem claim_C8_amended_waiting_line (acc : Acc) (q : Question) (raw : Str)
    (hc : acc.cur = some q) (hst : acc.state = PState.WAITING_FOR_ANS)
    (hs : skipLine (strip raw) = false) (hq : qstart (strip raw) = false)
    (hm : is_answer_marker (strip raw) = false) :
    (processLine acc raw).state = PState.READING_EXPL ∧
    (processLine acc raw).questions = acc.questions ∧
    (processLine acc raw).cur = some (waitingUpd q (strip raw)) ∧
    (waitingUpd q (strip raw)).explanation = q.explanation ++ strip raw ++ ['\n'] ∧
    (waitingUpd q (strip raw)).correct_answer =
      (if extract_answer_key (strip raw) ≠ [] ∧ q.correct_answer = []
       then extract_answer_key (strip raw) else q.correct_answer) ∧
    (waitingUpd q (strip raw)).question = q.question := by
  have h := processLine_cases acc raw
  generalize hres : processLine acc raw = res at h ⊢
  cases h with
  | skip hs2 => rw [hs] at hs2; exact Bool.noConfusion hs2
  | newQ hs2 hq2 => rw [hq] at hq2; exact Bool.noConfusion hq2
  | noCur hs2 hq2 hc2 => rw [hc] at hc2; exact Option.noConfusion hc2
  | markerWait q2 hc2 hs2 hq2 hm2 ha => rw [hm] at hm2; exact Bool.noConfusion hm2
  | markerText q2 hc2 hs2 hq2 hm2 ha => rw [hm] at hm2; exact Bool.noConfusion hm2
  | waiting q2 hc2 hs2 hq2 hm2 hst2 =>
    rw [hc] at hc2
    rw [← Option.some.inj hc2]
    exact ⟨rfl, rfl, rfl, waitingUpd_explanation q _, waitingUpd_correct q _,
           waitingUpd_question q _⟩
  | stem q2 hc2 hs2 hq2 hm2 hst2 hsp => rw [hst] at hst2; exact PState.noConfusion hst2
  | optLine q2 hc2 hs2 hq2 hm2 hst2 hsp =>
    rw [hst] at hst2
    rcases hst2 with h2 | h2
    · exact PState.noConfusion h2
    · exact PState.noConfusion h2
  | optCont q2 f hc2 hs2 hq2 hm2 hst2 hsp hlo => rw [hst] at hst2; exact PState.noConfusion hst2
  | optDrop q2 hc2 hs2 hq2 hm2 hst2 hsp hlo => rw [hst] at hst2; exact PState.noConfusion hst2
  | expl q2 hc2 hs2 hq2 hm2 hst2 => rw [hst] at hst2; exact PState.noConfusion hst2
  | search q2 hc2 hs2 hq2 hm2 hst2 => rw [hst] at hst2; exact PState.noConfusion hst2

/-- Claim C8 counterexample: after `1. Q` and a bare `[解]` the parser is in
`WAITING_FOR_ANS`; the next line `[解]` is processed for the same question but
is captured by the answer-marker branch, so nothing is appended to the
explanation (it ends empty rather than containing the raw line) and the state
does not move to `READING_EXPL` — refuting "appended regardless" and "always
transitions after exactly that one line". -/
theorem claim_C8_counterexample :
    parse_exam_pdf (S "1. Q\n[解]\n[解]") =
      [{ question := S "1. Q", option_A := [], option_B := [], option_C := [], option_D := [],
         correct_answer := [], explanation := [], topic := [], type := S "essay" }] ∧
    is_answer_marker (S "[解]") = true ∧ skipLine (strip (S "[解]")) = false :=
  ⟨by decide, by decide, by decide⟩

/-- Claim C8 witness: a plain `(3)` line in `WAITING_FOR_ANS` moves the state
to `READING_EXPL`. -/
theorem claim_C8_witness :
    (processLine
        { questions := [],
          cur := some { question := S "1. Q", option_A := [], option_B := [], option_C := [],
                        option_D := [], correct_answer := [], explanation := [], topic := [],
                        type := S "choice" },
          state := PState.WAITING_FOR_ANS, lastOpt := none }
        (S "(3)")).state = PState.READING_EXPL :=
  (claim_C8_amended_waiting_line _ _ _ rfl rfl (by decide) (by decide) (by decide)).1

/-- Claim C2, corrected.  The original round-trip claim is false: a non-empty,
non-footer line before the first question-number line is dropped without being
the documented `READING_OPT` orphan case, and on an option-bearing line the
text before the first option marker is discarded (see the counterexample).
Amended claim, per line with an open question: the line is consumed by exactly
one branch — it becomes the new stem (question-start), its tag-stripped tail
goes to the explanation (marker with trailing text; the text up to the tag is
dropped), nothing is stored (bare marker), it is appended to the explanation
(`WAITING_FOR_ANS` or `READING_EXPL`), appended to the stem (`READING_Q`
without markers), split into the option slots from the first marker on
(marker-bearing line), appended to the open option slot (continuation), or
dropped as the orphan option-less line in `READING_OPT`; lines with no open
question are dropped. -/
theorem claim_C2_amended_line_accounting (acc : Acc) (q : Question) (raw : Str)
    (hc : acc.cur = some q) (hs : skipLine (strip raw) = false)
    (hst : acc.state ≠ PState.SEARCH_Q) :
    (qstart (strip raw) = true ∧
       (processLine acc raw).questions = acc.questions ++ [finalize_question q] ∧
       (processLine acc raw).cur = some (initQuestion (strip raw))) ∨
    (qstart (strip raw) = false ∧ is_answer_marker (strip raw) = true ∧
       (afterMarker (strip raw)).isEmpty = false ∧
       ∃ q2, (processLine acc raw).cur = some q2 ∧
         q2.explanation = q.explanation ++ afterMarker (strip raw) ++ ['\n'] ∧
         q2.question = q.question ∧ q2.option_A = q.option_A ∧ q2.option_B = q.option_B ∧
         q2.option_C = q.option_C ∧ q2.option_D = q.option_D) ∨
    (qstart (strip raw) = false ∧ is_answer_marker (strip raw) = true ∧
       (afterMarker (strip raw)).isEmpty = true ∧
       processLine acc raw = { acc with state := PState.WAITING_FOR_ANS, lastOpt := none }) ∨
    (qstart (strip raw) = false ∧ is_answer_marker (strip raw) = false ∧
       acc.state = PState.WAITING_FOR_ANS ∧
       ∃ q2, (processLine acc raw).cur = some q2 ∧
         q2.explanation = q.explanation ++ strip raw ++ ['\n'] ∧
         q2.question = q.question ∧ q2.option_A = q.option_A ∧ q2.option_B = q.option_B ∧
         q2.option_C = q.option_C ∧ q2.option_D = q.option_D) ∨
    (qstart (strip raw) = false ∧ is_answer_marker (strip raw) = false ∧
       acc.state = PState.READING_Q ∧
       (split_options_anywhere (strip raw)).isEmpty = true ∧
       (processLine acc raw).cur = some { q with question := q.question ++ ' ' :: strip raw }) ∨
    (qstart (strip raw) = false ∧ is_answer_marker (strip raw) = false ∧
       (acc.state = PState.READING_Q ∨ acc.state = PState.READING_OPT) ∧
       (split_options_anywhere (strip raw)).isEmpty = false ∧
       (processLine acc raw).cur =
         some (applyOpts q (split_options_anywhere (strip raw)) acc.lastOpt).1) ∨
    (qstart (strip raw) = false ∧ is_answer_marker (strip raw) = false ∧
       acc.state = PState.READING_OPT ∧
       (split_options_anywhere (strip raw)).isEmpty = true ∧
       ∃ f, acc.lastOpt = some f ∧
         (processLine acc raw).cur =
           some (setOptField q f (strip (getOptField q f ++ ' ' :: strip raw)))) ∨
    (qstart (strip raw) = false ∧ is_answer_marker (strip raw) = false ∧
       acc.state = PState.READING_OPT ∧
       (split_options_anywhere (strip raw)).isEmpty = true ∧
       acc.lastOpt = none ∧ processLine acc raw = acc) ∨
    (qstart (strip raw) = false ∧ is_answer_marker (strip raw) = false ∧
       acc.state = PState.READING_EXPL ∧
       ∃ q2, (processLine acc raw).cur = some q2 ∧
         q2.explanation = q.explanation ++ strip raw ++ ['\n'] ∧
         q2.question = q.question) := by
  have h := processLine_cases acc raw
  generalize hres : processLine acc raw = res at h ⊢
  cases h with
  | skip hs2 => rw [hs] at hs2; exact Bool.noConfusion hs2
  | noCur hs2 hq2 hc2 => rw [hc] at hc2; exact Option.noConfusion hc2
  | search q2 hc2 hs2 hq2 hm2 hst2 => exact absurd hst2 hst
  | newQ hs2 hq2 =>
    refine Or.inl ⟨hq2, ?_, rfl⟩
    show flushQ acc = acc.questions ++ [finalize_question q]
    unfold flushQ
    rw [hc]
  | markerText q2 hc2 hs2 hq2 hm2 ha =>
    rw [hc] at hc2
    rw [← Option.some.inj hc2]
    exact Or.inr (Or.inl ⟨hq2, hm2, ha, markerUpd q (afterMarker (strip raw)), rfl,
      markerUpd_explanation q _, markerUpd_question q _, (markerUpd_options q _).1,
      (markerUpd_options q _).2.1, (markerUpd_options q _).2.2.1, (markerUpd_options q _).2.2.2⟩)
  | markerWait q2 hc2 hs2 hq2 hm2 ha =>
    exact Or.inr (Or.inr (Or.inl ⟨hq2, hm2, ha, rfl⟩))
  | waiting q2 hc2 hs2 hq2 hm2 hst2 =>
    rw [hc] at hc2
    rw [← Option.some.inj hc2]
    exact Or.inr (Or.inr (Or.inr (Or.inl ⟨hq2, hm2, hst2, waitingUpd q (strip raw), rfl,
      waitingUpd_explanation q _, waitingUpd_question q _, (waitingUpd_options q _).1,
      (waitingUpd_options q _).2.1, (waitingUpd_options q _).2.2.1,
      (waitingUpd_options q _).2.2.2⟩)))
  | stem q2 hc2 hs2 hq2 hm2 hst2 hsp =>
    rw [hc] at hc2
    rw [← Option.some.inj hc2]
    exact Or.inr (Or.inr (Or.inr (Or.inr (Or.inl ⟨hq2, hm2, hst2, hsp, rfl⟩))))
  | optLine q2 hc2 hs2 hq2 hm2 hst2 hsp =>
    rw [hc] at hc2
    rw [← Option.some.inj hc2]
    exact Or.inr (Or.inr (Or.inr (Or.inr (Or.inr (Or.inl ⟨hq2, hm2, hst2, hsp, rfl⟩)))))
  | optCont q2 f hc2 hs2 hq2 hm2 hst2 hsp hlo =>
    rw [hc] at hc2
    rw [← Option.some.inj hc2]
    exact Or.inr (Or.inr (Or.inr (Or.inr (Or.inr (Or.inr (Or.inl
      ⟨hq2, hm2, hst2, hsp, f, hlo, rfl⟩))))))
  | optDrop q2 hc2 hs2 hq2 hm2 hst2 hsp hlo =>
    exact Or.inr (Or.inr (Or.inr (Or.inr (Or.inr (Or.inr (Or.inr (Or.inl
      ⟨hq2, hm2, hst2, hsp, hlo, rfl⟩)))))))
  | expl q2 hc2 hs2 hq2 hm2 hst2 =>
    rw [hc] at hc2
    rw [← Option.some.inj hc2]
    exact Or.inr (Or.inr (Or.inr (Or.inr (Or.inr (Or.inr (Or.inr (Or.inr
      ⟨hq2, hm2, hst2, explUpd q (strip raw), rfl, explUpd_explanation q _,
       explUpd_question q _⟩)))))))

/-- Claim C2 counterexample: on this input the line `junk` (non-empty,
non-footer, before the first question-number line) and the text `lead`
(before the first option marker of the option line) appear in no field of the
single emitted question, and the `junk` drop is not the documented
`READING_OPT` orphan case since no question was open — so not every
non-footer, non-empty line is accounted for. -/
theorem claim_C2_counterexample :
    parse_exam_pdf (S "junk\n1. Q stem\nlead (1)A (2)B (3)C") =
      [{ question := S "1. Q stem", option_A := S "(1)A", option_B := S "(2)B",
         option_C := S "(3)C", option_D := [], correct_answer := [], explanation := [],
         topic := [], type := S "choice" }] ∧
    skipLine (strip (S "junk")) = false ∧
    skipLine (strip (S "lead (1)A (2)B (3)C")) = false ∧
    ((parse_exam_pdf (S "junk\n1. Q stem\nlead (1)A (2)B (3)C")).all
       (fun q => !(inQuestion (S "junk") q))) = true ∧
    ((parse_exam_pdf (S "junk\n1. Q stem\nlead (1)A (2)B (3)C")).all
       (fun q => !(inQuestion (S "lead") q))) = true :=
  ⟨by decide, by decide, by decide, by decide, by decide⟩

/-- Claim C2 witness: a plain continuation line in `READING_Q` is appended to
the question stem. -/
theorem claim_C2_witness :
    (processLine { questions := [], cur := some (initQuestion (S "1. Q")),
                   state := PState.READING_Q, lastOpt := none } (S "more")).cur =
      some { initQuestion (S "1. Q") with question := S "1. Q" ++ ' ' :: S "more" } := by
  have h := claim_C2_amended_line_accounting
      { questions := [], cur := some (initQuestion (S "1. Q")),
        state := PState.READING_Q, lastOpt := none }
      (initQuestion (S "1. Q")) (S "more") rfl (by decide) (by decide)
  rcases h with ⟨h1, _⟩ | ⟨_, h1, _⟩ | ⟨_, h1, _⟩ | ⟨_, _, h1, _⟩ | ⟨_, _, _, _, h1⟩ |
    ⟨_, _, _, h1, _⟩ | ⟨_, _, h1, _⟩ | ⟨_, _, h1, _⟩ | ⟨_, _, h1, _⟩
  · exact absurd h1 (by decide)
  · exact absurd h1 (by decide)
  · exact absurd h1 (by decide)
  · exact absurd h1 (by decide)
  · exact h1
  · exact absurd h1 (by decide)
  · exact absurd h1 (by decide)
  · exact absurd h1 (by decide)
  · exact absurd h1 (by decide)

/-- Claim C1, corrected.  The original claim is false: `finalize_question`
moves populated option text into the explanation only when the explanation is
still empty (`if extra and not q.get("explanation")`), so with a non-empty
explanation the populated option text is discarded (see the counterexample).
Amended claim: a question finalized with fewer than 3 non-empty option slots
gets type `essay`, empty `correct_answer`, all four option fields empty and an
unchanged stem; when `explanation` was empty the populated option values are
moved into it newline-joined, and when `explanation` already held text it is
kept unchanged and the populated option values are dropped. -/
theorem claim_C1_amended_essay_reclassification (q : Question)
    (h : (([strip q.option_A, strip q.option_B, strip q.option_C, strip q.option_D]).filter
            (fun o => !o.isEmpty)).length < 3) :
    (finalize_question q).type = S "essay" ∧
    (finalize_question q).correct_answer = [] ∧
    (finalize_question q).option_A = [] ∧ (finalize_question q).option_B = [] ∧
    (finalize_question q).option_C = [] ∧ (finalize_question q).option_D = [] ∧
    (finalize_question q).question = q.question ∧
    (q.explanation ≠ [] → (finalize_question q).explanation = q.explanation) ∧
    (q.explanation = [] → (finalize_question q).explanation =
       joinNL (([q.option_A, q.option_B, q.option_C, q.option_D]).filter
         (fun o => !o.isEmpty))) := by
  unfold finalize_question
  dsimp only
  rw [if_pos h]
  refine ⟨rfl, rfl, rfl, rfl, rfl, rfl, rfl, ?_, ?_⟩
  · intro hne
    simp [isEmpty_false_of_ne_nil hne]
  · intro he
    cases hx : (([q.option_A, q.option_B, q.option_C, q.option_D]).filter
        (fun o => !o.isEmpty)).isEmpty with
    | true =>
      have hnil : ([q.option_A, q.option_B, q.option_C, q.option_D]).filter
          (fun o => !o.isEmpty) = [] := by
        cases hy : ([q.option_A, q.option_B, q.option_C, q.option_D]).filter
            (fun o => !o.isEmpty) with
        | nil => rfl
        | cons a r => rw [hy] at hx; exact Bool.noConfusion hx
      simp [he, hnil, joinNL]
    | false => simp [he, hx]

/-- Claim C1 counterexample: this input finalizes a question with one
populated option `(1)A` and the non-empty explanation `note\n`; the populated
option text is discarded rather than moved into the explanation, refuting
"regardless of whether explanation already held text". -/
theorem claim_C1_counterexample :
    parse_exam_pdf (S "1. Q\n(1)A\n[解:] note") =
      [{ question := S "1. Q", option_A := [], option_B := [], option_C := [], option_D := [],
         correct_answer := [], explanation := S "note\n", topic := [], type := S "essay" }] ∧
    ((parse_exam_pdf (S "1. Q\n(1)A\n[解:] note")).all
       (fun q => !(inQuestion (S "(1)A") q))) = true :=
  ⟨by decide, by decide⟩

/-- Claim C1 witness: a two-option question with a pre-existing explanation is
reclassified to essay and its explanation stays unchanged. -/
theorem claim_C1_witness :
    (finalize_question
        { question := S "5. Pick", option_A := S "(1)Only", option_B := S "(2)Two",
          option_C := [], option_D := [], correct_answer := S "A", explanation := S "E",
          topic := [], type := S "choice" }).type = S "essay" ∧
    (finalize_question
        { question := S "5. Pick", option_A := S "(1)Only", option_B := S "(2)Two",
          option_C := [], option_D := [], correct_answer := S "A", explanation := S "E",
          topic := [], type := S "choice" }).explanation = S "E" :=
  ⟨(claim_C1_amended_essay_reclassification _ (by decide)).1,
   (claim_C1_amended_essay_reclassification _ (by decide)).2.2.2.2.2.2.2.1 (by decide)⟩

/-- Claim C4 counterexample: on the Scenario A input the emitted explanation
is `(2)\n解析內容\n`, not `解析內容\n` — the answer-marker branch also appends
the tag-stripped answer text `(2)` to the explanation. -/
theorem claim_C4_counterexample :
    (parse_exam_pdf (S "1. What is X?\n(1)A\n(2)B\n(3)C\n(4)D\n[解:] (2)\n解析內容")).map
        Question.explanation = [S "(2)\n解析內容\n"] ∧
    S "(2)\n解析內容\n" ≠ S "解析內容\n" :=
  ⟨by decide, by decide⟩

/-- Claim C4, corrected.  Amended claim: the Scenario A input yields exactly
one Question with stem `1. What is X?`, the four verbatim options, answer key
`B` (the normalized key of option 2), and explanation `(2)\n解析內容\n` — the
text after the answer tag is appended to the explanation, newline-terminated,
before the explanation line. -/
theorem claim_C4_amended_scenarioA :
    parse_exam_pdf (S "1. What is X?\n(1)A\n(2)B\n(3)C\n(4)D\n[解:] (2)\n解析內容") =
      [{ question := S "1. What is X?", option_A := S "(1)A", option_B := S "(2)B",
         option_C := S "(3)C", option_D := S "(4)D", correct_answer := S "B",
         explanation := S "(2)\n解析內容\n", topic := [], type := S "choice" }] := by
  decide

/-- Claim C7: `extract_answer_key` maps `(n)`, `n` and ` （n） ` (and the
letter forms, upper or lower case, with half- or full-width parentheses and
surrounding whitespace) to the same non-empty canonical key, and maps every
input on which the key pattern does not match to the empty string, never to a
default value. -/
theorem claim_C7_answer_normalization :
    (∀ c ∈ keyChars, ∀ f ∈ [[c], ['(', c, ')'], ['（', c, '）'],
        [' ', '(', c, ')', ' '], [' ', '（', c, '）', ' ']],
      extract_answer_key f = [mapKey (upperKey c)] ∧ extract_answer_key f ≠ []) ∧
    (∀ s : Str, keyMatch s = false → extract_answer_key s = []) := by
  constructor
  · decide
  · intro s h
    unfold keyMatch at h
    unfold extract_answer_key
    cases hk : keyChar? (strip s) with
    | none => rfl
    | some c => rw [hk] at h; exact Bool.noConfusion h

/-- Claim C7 witness: `(2)` normalizes to the canonical key of option 2, and
an unparseable string normalizes to the empty string. -/
theorem claim_C7_witness :
    extract_answer_key ['(', '2', ')'] = [mapKey (upperKey '2')] ∧
    extract_answer_key (S "hello") = [] :=
  ⟨(claim_C7_answer_normalization.1 '2' (by decide) ['(', '2', ')'] (by decide)).1,
   claim_C7_answer_normalization.2 (S "hello") (by decide)⟩

/-- Writing a key makes it readable. -/
theorem dread_dset_self (d : PyDict) (k v : Str) : dread (dset d k v) k = some v := by
  induction d with
  | nil =>
    unfold dset dread
    rw [List.find?_cons_of_pos _ (by simp)]
    rfl
  | cons p rest ih =>
    unfold dset
    by_cases h : p.1 = k
    · rw [if_pos h]
      unfold dread
      rw [List.find?_cons_of_pos _ (by simp)]
      rfl
    · rw [if_neg h]
      unfold dread
      rw [List.find?_cons_of_neg _ (by simp [h])]
      exact ih

/-- Writing one key does not affect reads of another. -/
theorem dread_dset_ne (d : PyDict) (k v k2 : Str) (h : k2 ≠ k) :
    dread (dset d k v) k2 = dread d k2 := by
  induction d with
  | nil =>
    unfold dset dread
    rw [List.find?_cons_of_neg _ (by simp [Ne.symm h])]
  | cons p rest ih =>
    unfold dset
    by_cases h2 : p.1 = k
    · rw [if_pos h2]
      have hp : ¬(p.1 = k2) := by rw [h2]; exact fun hh => h hh.symm
      unfold dread
      rw [List.find?_cons_of_neg _ (by simp [Ne.symm h]),
          List.find?_cons_of_neg _ (by simp [hp])]
    · rw [if_neg h2]
      unfold dread
      by_cases h3 : p.1 = k2
      · rw [List.find?_cons_of_pos _ (by simp [h3]), List.find?_cons_of_pos _ (by simp [h3])]
      · rw [List.find?_cons_of_neg _ (by simp [h3]), List.find?_cons_of_neg _ (by simp [h3])]
        exact ih

/-- A readable key stays readable across any write. -/
theorem dread_isSome_dset (d : PyDict) (k v k2 : Str) (h : (dread d k2).isSome = true) :
    (dread (dset d k v) k2).isSome = true := by
  by_cases hk : k2 = k
  · subst hk
    rw [dread_dset_self]
    rfl
  · rw [dread_dset_ne d k v k2 hk]
    exact h

/-- `dset` preserves the key-set invariant. -/
theorem hasKeysD_dset (q : PyDict) (k v : Str) (h : hasKeysD q = true) :
    hasKeysD (dset q k v) = true := by
  simp only [hasKeysD, Bool.and_eq_true] at h ⊢
  exact ⟨⟨⟨⟨⟨⟨dread_isSome_dset _ _ _ _ h.1.1.1.1.1.1, dread_isSome_dset _ _ _ _ h.1.1.1.1.1.2⟩,
    dread_isSome_dset _ _ _ _ h.1.1.1.1.2⟩, dread_isSome_dset _ _ _ _ h.1.1.1.2⟩,
    dread_isSome_dset _ _ _ _ h.1.1.2⟩, dread_isSome_dset _ _ _ _ h.1.2⟩,
    dread_isSome_dset _ _ _ _ h.2⟩

/-- A fresh question dict carries all its keys. -/
theorem hasKeysD_initDict (line : Str) : hasKeysD (initDict line) = true := rfl

/-- The explanation key is readable under the invariant. -/
theorem hasKeysD_explanation {q : PyDict} (h : hasKeysD q = true) :
    (dread q (S "explanation")).isSome = true := by
  simp only [hasKeysD, Bool.and_eq_true] at h
  exact h.2

/-- The question key is readable under the invariant. -/
theorem hasKeysD_question {q : PyDict} (h : hasKeysD q = true) :
    (dread q (S "question")).isSome = true := by
  simp only [hasKeysD, Bool.and_eq_true] at h
  exact h.1.1.1.1.1.1

/-- Each option key is readable under the invariant. -/
theorem hasKeysD_optkeys {q : PyDict} (h : hasKeysD q = true) :
    (dread q (S "option_A")).isSome = true ∧ (dread q (S "option_B")).isSome = true ∧
    (dread q (S "option_C")).isSome = true ∧ (dread q (S "option_D")).isSome = true := by
  simp only [hasKeysD, Bool.and_eq_true] at h
  exact ⟨h.1.1.1.1.1.2, h.1.1.1.1.2, h.1.1.1.2, h.1.1.2⟩

/-- A `+=` on a readable key succeeds and keeps the invariant. -/
theorem dincr_ok (q : PyDict) (k v : Str) (hk : hasKeysD q = true)
    (hr : (dread q k).isSome = true) : ∃ q2, dincr q k v = some q2 ∧ hasKeysD q2 = true := by
  obtain ⟨old, hold⟩ := Option.isSome_iff_exists.mp hr
  exact ⟨dset q k (old ++ v), by simp [dincr, hold], hasKeysD_dset _ _ _ hk⟩

/-- The marker-branch update never raises and keeps the invariant. -/
theorem markerUpdD_ok (q : PyDict) (a : Str) (h : hasKeysD q = true) :
    ∃ q2, markerUpdD q a = some q2 ∧ hasKeysD q2 = true := by
  unfold markerUpdD
  dsimp only
  by_cases he : (extract_answer_key a).isEmpty = true
  · rw [if_pos he]
    exact dincr_ok q _ _ h (hasKeysD_explanation h)
  · rw [if_neg he]
    have h2 := hasKeysD_dset q (S "correct_answer") (extract_answer_key a) h
    exact dincr_ok _ _ _ h2 (hasKeysD_explanation h2)

/-- The `WAITING_FOR_ANS` update never raises and keeps the invariant. -/
theorem waitingUpdD_ok (q : PyDict) (l : Str) (h : hasKeysD q = true) :
    ∃ q2, waitingUpdD q l = some q2 ∧ hasKeysD q2 = true := by
  unfold waitingUpdD
  dsimp only
  by_cases he : (!(extract_answer_key l).isEmpty && (dget q (S "correct_answer")).isEmpty) = true
  · rw [if_pos he]
    have h2 := hasKeysD_dset q (S "correct_answer") (extract_answer_key l) h
    exact dincr_ok _ _ _ h2 (hasKeysD_explanation h2)
  · rw [if_neg he]
    exact dincr_ok q _ _ h (hasKeysD_explanation h)

/-- The stem update never raises and keeps the invariant. -/
theorem stemUpdD_ok (q : PyDict) (l : Str) (h : hasKeysD q = true) :
    ∃ q2, stemUpdD q l = some q2 ∧ hasKeysD q2 = true := by
  unfold stemUpdD
  exact dincr_ok q _ _ h (hasKeysD_question h)

/-- The explanation update never raises and keeps the invariant. -/
theorem explUpdD_ok (q : PyDict) (l : Str) (h : hasKeysD q = true) :
    ∃ q2, explUpdD q l = some q2 ∧ hasKeysD q2 = true := by
  unfold explUpdD
  dsimp only
  by_cases he : (dget q (S "correct_answer")).isEmpty = true
  · rw [if_pos he]
    by_cases he2 : (extract_answer_key l).isEmpty = true
    · rw [if_pos he2]
      exact dincr_ok q _ _ h (hasKeysD_explanation h)
    · rw [if_neg he2]
      have h2 := hasKeysD_dset q (S "correct_answer") (extract_answer_key l) h
      exact dincr_ok _ _ _ h2 (hasKeysD_explanation h2)
  · rw [if_neg he]
    exact dincr_ok q _ _ h (hasKeysD_explanation h)

/-- The option continuation never raises when `last_opt` names an option slot
of a dict satisfying the invariant. -/
theorem contD_ok (q : PyDict) (k : Str) (line : Str) (h : hasKeysD q = true)
    (hk : optKeyD k = true) : ∃ q2, contD q k line = some q2 ∧ hasKeysD q2 = true := by
  have hr : (dread q k).isSome = true := by
    simp only [optKeyD, Bool.or_eq_true, decide_eq_true_eq] at hk
    obtain ⟨hA, hB, hC, hD⟩ := hasKeysD_optkeys h
    rcases hk with ((h1 | h1) | h1) | h1 <;> rw [h1]
    · exact hA
    · exact hB
    · exact hC
    · exact hD
  obtain ⟨old, hold⟩ := Option.isSome_iff_exists.mp hr
  exact ⟨dset q k (strip (old ++ ' ' :: line)), by simp [contD, hold], hasKeysD_dset _ _ _ h⟩

/-- One `if n in opts` block keeps both parts of the invariant. -/
theorem setD1_inv (p : PyDict × Option Str) (v? : Option Str) (key : Str)
    (hp : hasKeysD p.1 = true) (hlo : ∀ k, p.2 = some k → optKeyD k = true)
    (hkey : optKeyD key = true) :
    hasKeysD (setD1 p v? key).1 = true ∧ (∀ k, (setD1 p v? key).2 = some k → optKeyD k = true) := by
  cases v? with
  | none => exact ⟨hp, hlo⟩
  | some v =>
    refine ⟨hasKeysD_dset _ _ _ hp, ?_⟩
    intro k hk
    rw [← Option.some.inj hk]
    exact hkey

/-- The whole option-assignment block keeps both parts of the invariant. -/
theorem applyOptsD_inv (q : PyDict) (o : Opts) (lo : Option Str)
    (hq : hasKeysD q = true) (hlo : ∀ k, lo = some k → optKeyD k = true) :
    hasKeysD (applyOptsD q o lo).1 = true ∧
    (∀ k, (applyOptsD q o lo).2 = some k → optKeyD k = true) := by
  unfold applyOptsD
  have h1 := setD1_inv (q, lo) o.o1 (S "option_A") hq hlo (by decide)
  have h2 := setD1_inv _ o.o2 (S "option_B") h1.1 h1.2 (by decide)
  have h3 := setD1_inv _ o.o3 (S "option_C") h2.1 h2.2 (by decide)
  exact setD1_inv _ o.o4 (S "option_D") h3.1 h3.2 (by decide)

/-- One dict-level loop iteration never raises and keeps the loop invariant. -/
theorem processLineD_ok (acc : AccD) (raw : Str) (h : InvD acc) :
    ∃ acc2, processLineD acc raw = some acc2 ∧ InvD acc2 := by
  obtain ⟨hcur, hlo⟩ := h
  by_cases hs : skipLine (strip raw) = true
  · exact ⟨acc, by simp [processLineD, hs], hcur, hlo⟩
  by_cases hq : qstart (strip raw) = true
  · refine ⟨{ questions := flushD acc, cur := some (initDict (strip raw)),
              state := PState.READING_Q, lastOpt := none },
      by simp [processLineD, hs, hq], ?_, ?_⟩
    · intro q2 h2
      rw [← Option.some.inj h2]
      exact hasKeysD_initDict _
    · intro k h2
      exact Option.noConfusion h2
  cases hc : acc.cur with
  | none => exact ⟨acc, by simp [processLineD, hs, hq, hc], hcur, hlo⟩
  | some q =>
    have hkq := hcur q hc
    by_cases hm : is_answer_marker (strip raw) = true
    · by_cases ha : (afterMarker (strip raw)).isEmpty = true
      · refine ⟨{ acc with state := PState.WAITING_FOR_ANS, lastOpt := none },
          by simp [processLineD, hs, hq, hc, hm, ha], hcur, ?_⟩
        intro k h2
        exact Option.noConfusion h2
      · obtain ⟨q2, hq2, hk2⟩ := markerUpdD_ok q (afterMarker (strip raw)) hkq
        refine ⟨{ acc with cur := some q2, state := PState.READING_EXPL, lastOpt := none },
          by simp [processLineD, hs, hq, hc, hm, ha, hq2], ?_, ?_⟩
        · intro q3 h3
          rw [← Option.some.inj h3]
          exact hk2
        · intro k h3
          exact Option.noConfusion h3
    · cases hst : acc.state with
      | WAITING_FOR_ANS =>
        obtain ⟨q2, hq2, hk2⟩ := waitingUpdD_ok q (strip raw) hkq
        refine ⟨{ acc with cur := some q2, state := PState.READING_EXPL },
          by simp [processLineD, hs, hq, hc, hm, hst, hq2], ?_, hlo⟩
        intro q3 h3
        rw [← Option.some.inj h3]
        exact hk2
      | READING_Q =>
        by_cases hsp : (split_options_anywhere (strip raw)).isEmpty = true
        · obtain ⟨q2, hq2, hk2⟩ := stemUpdD_ok q (strip raw) hkq
          refine ⟨{ acc with cur := some q2 },
            by simp [processLineD, hs, hq, hc, hm, hst, hsp, hq2], ?_, hlo⟩
          intro q3 h3
          rw [← Option.some.inj h3]
          exact hk2
        · obtain ⟨hk2, hlo2⟩ :=
            applyOptsD_inv q (split_options_anywhere (strip raw)) acc.lastOpt hkq hlo
          refine ⟨{ acc with
              cur := some (applyOptsD q (split_options_anywhere (strip raw)) acc.lastOpt).1,
              state := PState.READING_OPT,
              lastOpt := (applyOptsD q (split_options_anywhere (strip raw)) acc.lastOpt).2 },
            by simp [processLineD, hs, hq, hc, hm, hst, hsp], ?_, hlo2⟩
          intro q3 h3
          rw [← Option.some.inj h3]
          exact hk2
      | READING_OPT =>
        by_cases hsp : (split_options_anywhere (strip raw)).isEmpty = true
        · cases hlo2 : acc.lastOpt with
          | none => exact ⟨acc, by simp [processLineD, hs, hq, hc, hm, hst, hsp, hlo2], hcur, hlo⟩
          | some k =>
            obtain ⟨q2, hq2, hk2⟩ := contD_ok q k (strip raw) hkq (hlo k hlo2)
            refine ⟨{ acc with cur := some q2 },
              by simp [processLineD, hs, hq, hc, hm, hst, hsp, hlo2, hq2], ?_, hlo⟩
            intro q3 h3
            rw [← Option.some.inj h3]
            exact hk2
        · obtain ⟨hk2, hlo2⟩ :=
            applyOptsD_inv q (split_options_anywhere (strip raw)) acc.lastOpt hkq hlo
          refine ⟨{ acc with
              cur := some (applyOptsD q (split_options_anywhere (strip raw)) acc.lastOpt).1,
              state := PState.READING_OPT,
              lastOpt := (applyOptsD q (split_options_anywhere (strip raw)) acc.lastOpt).2 },
            by simp [processLineD, hs, hq, hc, hm, hst, hsp], ?_, hlo2⟩
          intro q3 h3
          rw [← Option.some.inj h3]
          exact hk2
      | READING_EXPL =>
        obtain ⟨q2, hq2, hk2⟩ := explUpdD_ok q (strip raw) hkq
        refine ⟨{ acc with cur := some q2 },
          by simp [processLineD, hs, hq, hc, hm, hst, hq2], ?_, hlo⟩
        intro q3 h3
        rw [← Option.some.inj h3]
        exact hk2
      | SEARCH_Q => exact ⟨acc, by simp [processLineD, hs, hq, hc, hm, hst], hcur, hlo⟩

/-- Folding the dict-level loop over any line list never raises. -/
theorem foldlM_ok (ls : List Str) : ∀ acc : AccD, InvD acc →
    ∃ acc2, List.foldlM processLineD acc ls = some acc2 ∧ InvD acc2 := by
  induction ls with
  | nil => intro acc h; exact ⟨acc, rfl, h⟩
  | cons l ls ih =>
    intro acc h
    obtain ⟨acc1, h1, hinv1⟩ := processLineD_ok acc l h
    obtain ⟨acc2, h2, hinv2⟩ := ih acc1 hinv1
    refine ⟨acc2, ?_, hinv2⟩
    rw [List.foldlM_cons, h1]
    exact h2

/-- Claim C6: for every input string, the dict-level model of
`parse_exam_pdf` — in which every fallible Python dict subscript read is
explicit and `none` models an uncaught exception — terminates normally with a
list of question dicts: no exception propagates to the caller for any input,
however malformed. -/
theorem claim_C6_no_exception (text : Str) : (parse_exam_pdf_dict text).isSome = true := by
  unfold parse_exam_pdf_dict
  obtain ⟨acc2, h2, _⟩ := foldlM_ok (splitLines text)
      { questions := [], cur := none, state := PState.SEARCH_Q, lastOpt := none }
      ⟨fun q h => Option.noConfusion h, fun k h => Option.noConfusion h⟩
  rw [h2]
  rfl

end RPOExam
